import Mathlib

/-!
Formal model of the DPP backend services (blockchain_service.py, ipfs_service.py,
dpp_service.py): canonical hashing of JSON-LD metadata documents, content-store
upload stamping, integrity verification, and the create/verify/update flows.

JSON values are modelled by the inductive type `Json`; a metadata document (a
Python dict at top level) is an association list `Doc`.  Python dict semantics
(insertion order, key update, equality) are modelled explicitly.  The digest
used by the source is keccak-256 (Web3.keccak) over the UTF-8 bytes of
json.dumps(data, sort_keys=True, separators=(",", ":")); keccak-256 is
implemented in full below, and the HexBytes hex() rendering used by the source
returns a 0x-prefixed lowercase hex string.
-/

/-- JSON-compatible values: strings, integers, booleans, null, sequences and
string-keyed mappings, mappings being association lists in insertion order. -/
inductive Json where
  | str (s : String)
  | num (n : Int)
  | bool (b : Bool)
  | null
  | arr (xs : List Json)
  | obj (fields : List (String × Json))

/-- A metadata document: a Python dict from string keys to JSON values. -/
abbrev Doc := List (String × Json)

/-! Lexicographic comparison of keys by code point, as Python compares strings
when json.dumps sorts mapping keys.  Defined on raw character lists so that it
evaluates inside the kernel. -/

/-- Strict code-point lexicographic order on character lists. -/
def charListLt : List Char → List Char → Bool
  | [], [] => false
  | [], _ :: _ => true
  | _ :: _, [] => false
  | a :: as, b :: bs =>
    if a.toNat < b.toNat then true
    else if b.toNat < a.toNat then false
    else charListLt as bs

/-- Strict order on keys, as Python string comparison. -/
def keyLt (a b : String) : Bool := charListLt a.data b.data

/-- Insertion step of the key sort: place p before the first entry whose key is
not below the key of p. -/
def insertPair (p : String × Json) : List (String × Json) → List (String × Json)
  | [] => [p]
  | q :: t => if keyLt q.1 p.1 then q :: insertPair p t else p :: q :: t

/-- Insertion sort of mapping entries by key, modelling sort_keys=True. -/
def sortPairs : List (String × Json) → List (String × Json)
  | [] => []
  | p :: t => insertPair p (sortPairs t)

mutual

/-- Recursively sort every mapping of a JSON value by key.  Together with the
order-preserving serializer below this models json.dumps with sort_keys=True. -/
def canonJson : Json → Json
  | .str s => .str s
  | .num n => .num n
  | .bool b => .bool b
  | .null => .null
  | .arr xs => .arr (canonList xs)
  | .obj l => .obj (sortPairs (canonFields l))

/-- Canonicalize every value of a field list, keeping the field order. -/
def canonFields : List (String × Json) → List (String × Json)
  | [] => []
  | p :: t => (p.1, canonJson p.2) :: canonFields t

/-- Canonicalize every element of a sequence. -/
def canonList : List Json → List Json
  | [] => []
  | x :: t => canonJson x :: canonList t

end

/-! Serialization, following json.dumps with separators=(",", ":") and the
default ensure_ascii=True escaping. -/

/-- Render n as exactly four lowercase hex digits, for unicode escapes. -/
def hex4 (n : Nat) : List Char :=
  let d := fun (m : Nat) => if m < 10 then Char.ofNat (48 + m) else Char.ofNat (87 + m)
  [d (n / 4096 % 16), d (n / 256 % 16), d (n / 16 % 16), d (n % 16)]

/-- Unicode escape of one code point, using a surrogate pair beyond 0xFFFF as
Python does. -/
def uEscape (n : Nat) : List Char :=
  if n < 65536 then '\\' :: 'u' :: hex4 n
  else
    let m := n - 65536
    ('\\' :: 'u' :: hex4 (55296 + m / 1024)) ++ ('\\' :: 'u' :: hex4 (56320 + m % 1024))

/-- JSON escaping of one character, following the Python encoder with
ensure_ascii=True: printable ASCII except quote and backslash is kept, the
usual short escapes are used, and everything else becomes a unicode escape. -/
def escapeChar (c : Char) : List Char :=
  if c = '"' then ['\\', '"']
  else if c = '\\' then ['\\', '\\']
  else if c = '\n' then ['\\', 'n']
  else if c = '\t' then ['\\', 't']
  else if c = '\r' then ['\\', 'r']
  else if c.toNat = 8 then ['\\', 'b']
  else if c.toNat = 12 then ['\\', 'f']
  else if c.toNat < 32 || 126 < c.toNat then uEscape c.toNat
  else [c]

/-- Serialize a string literal with quotes and escaping. -/
def quoteStr (s : String) : String :=
  String.mk ('"' :: (s.data.map escapeChar).flatten ++ ['"'])

mutual

/-- Order-preserving JSON serializer with separators=(",", ":").  Applied after
canonJson it models json.dumps(data, sort_keys=True, separators=(",", ":")). -/
def dumpJson : Json → String
  | .str s => quoteStr s
  | .num n => toString n
  | .bool b => if b then "true" else "false"
  | .null => "null"
  | .arr xs => "[" ++ String.intercalate "," (dumpList xs) ++ "]"
  | .obj l => "\x7b" ++ String.intercalate "," (dumpFields l) ++ "\x7d"

/-- Serialize sequence elements. -/
def dumpList : List Json → List String
  | [] => []
  | x :: t => dumpJson x :: dumpList t

/-- Serialize mapping entries as quoted key, colon, value. -/
def dumpFields : List (String × Json) → List String
  | [] => []
  | p :: t => (quoteStr p.1 ++ ":" ++ dumpJson p.2) :: dumpFields t

end

/-- UTF-8 encoding of one character as a byte list. -/
def utf8Char (c : Char) : List Nat :=
  let n := c.toNat
  if n < 128 then [n]
  else if n < 2048 then [192 + n / 64, 128 + n % 64]
  else if n < 65536 then [224 + n / 4096, 128 + n / 64 % 64, 128 + n % 64]
  else [240 + n / 262144, 128 + n / 4096 % 64, 128 + n / 64 % 64, 128 + n % 64]

/-- UTF-8 encoding of a string, as Python encodes text before hashing. -/
def utf8Encode (s : String) : List Nat := (s.data.map utf8Char).flatten

/-! Keccak-256, the digest behind Web3.keccak.  The 1600-bit state is a list of
25 lanes of 64 bits, lane j holding coordinates x = j mod 5, y = j / 5. -/

/-- All ones in 64 bits. -/
def mask64 : Nat := 18446744073709551615

/-- Rotate a 64-bit lane left by r bits. -/
def rotl (r : Nat) (n : Nat) : Nat :=
  (Nat.shiftLeft n r ||| Nat.shiftRight n (64 - r)) &&& mask64

/-- Lane access with zero default. -/
def lane (s : List Nat) (i : Nat) : Nat := s.getD i 0

/-- Theta step of the keccak round function. -/
def theta (s : List Nat) : List Nat :=
  let c := (List.range 5).map fun x =>
    lane s x ^^^ lane s (x + 5) ^^^ lane s (x + 10) ^^^ lane s (x + 15) ^^^ lane s (x + 20)
  let d := (List.range 5).map fun x =>
    lane c ((x + 4) % 5) ^^^ rotl 1 (lane c ((x + 1) % 5))
  (List.range 25).map fun j => lane s j ^^^ lane d (j % 5)

/-- Source lane of each position under the pi permutation. -/
def piSrc : List Nat := [0, 6, 12, 18, 24, 3, 9, 10, 16, 22, 1, 7, 13, 19, 20, 4, 5, 11, 17, 23, 2, 8, 14, 15, 21]

/-- Rho rotation amount applied to the source lane of each position. -/
def rotAmt : List Nat := [0, 44, 43, 21, 14, 28, 20, 3, 45, 61, 1, 6, 25, 8, 18, 27, 36, 10, 15, 56, 62, 55, 39, 41, 2]

/-- Combined rho and pi steps. -/
def rhoPi (s : List Nat) : List Nat :=
  (List.range 25).map fun j => rotl (lane rotAmt j) (lane s (lane piSrc j))

/-- Chi step: combine each lane with the two lanes to its right in the row. -/
def chi (s : List Nat) : List Nat :=
  (List.range 25).map fun j =>
    lane s j ^^^ ((lane s (j / 5 * 5 + (j % 5 + 1) % 5) ^^^ mask64) &&& lane s (j / 5 * 5 + (j % 5 + 2) % 5))

/-- Iota step: mix the round constant into lane 0. -/
def iotaStep (rc : Nat) (s : List Nat) : List Nat :=
  match s with
  | [] => []
  | a :: t => (a ^^^ rc) :: t

/-- The 24 keccak round constants. -/
def roundConstants : List Nat :=
  [1, 32898, 9223372036854808714, 9223372039002292224,
   32907, 2147483649, 9223372039002292353, 9223372036854808585,
   138, 136, 2147516425, 2147483658,
   2147516555, 9223372036854775947, 9223372036854808713, 9223372036854808579,
   9223372036854808578, 9223372036854775936, 32778, 9223372039002259466,
   9223372039002292353, 9223372036854808704, 2147483649, 9223372039002292232]

/-- The keccak-f[1600] permutation: 24 rounds of theta, rho-pi, chi, iota. -/
def keccakF (s : List Nat) : List Nat :=
  roundConstants.foldl (fun st rc => iotaStep rc (chi (rhoPi (theta st)))) s

/-- Keccak pad10star1 padding to the 136-byte rate, with domain byte 0x01. -/
def padMsg (m : List Nat) : List Nat :=
  let padLen := 136 - m.length % 136
  if padLen == 1 then m ++ [129]
  else m ++ [1] ++ List.replicate (padLen - 2) 0 ++ [128]

/-- Split a padded byte list into rate-sized blocks, with fuel for structural
termination; the fuel is always sufficient since every block is nonempty. -/
def toBlocksAux : Nat → List Nat → List (List Nat)
  | 0, _ => []
  | _, [] => []
  | fuel + 1, l => l.take 136 :: toBlocksAux fuel (l.drop 136)

/-- Split a padded byte list into 136-byte blocks. -/
def toBlocks (l : List Nat) : List (List Nat) := toBlocksAux l.length l

/-- Little-endian conversion of eight bytes starting at an offset to a lane. -/
def blockLane (block : List Nat) (i : Nat) : Nat :=
  ((block.drop (8 * i)).take 8).foldr (fun b acc => acc * 256 + b) 0

/-- Absorb one 136-byte block into the state and permute. -/
def absorbBlock (s : List Nat) (block : List Nat) : List Nat :=
  keccakF ((List.range 25).map fun j => if j < 17 then lane s j ^^^ blockLane block j else lane s j)

/-- Little-endian byte decomposition of one lane. -/
def laneToBytes (n : Nat) : List Nat :=
  [n % 256, n / 256 % 256, n / 65536 % 256, n / 16777216 % 256,
   n / 4294967296 % 256, n / 1099511627776 % 256,
   n / 281474976710656 % 256, n / 72057594037927936 % 256]

/-- Keccak-256 digest of a byte list: absorb all padded blocks into the zero
state, then squeeze the first 32 bytes. -/
def keccak256Bytes (msg : List Nat) : List Nat :=
  let s := (toBlocks (padMsg msg)).foldl absorbBlock (List.replicate 25 0)
  laneToBytes (lane s 0) ++ laneToBytes (lane s 1) ++ laneToBytes (lane s 2) ++ laneToBytes (lane s 3)

/-- Lowercase hex digits of a byte list, two characters per byte. -/
def hexChars : List Nat → List Char
  | [] => []
  | b :: t =>
    (if b / 16 < 10 then Char.ofNat (48 + b / 16) else Char.ofNat (87 + b / 16)) ::
    (if b % 16 < 10 then Char.ofNat (48 + b % 16) else Char.ofNat (87 + b % 16)) :: hexChars t

/-- Hex string of a byte list. -/
def bytesToHex (bs : List Nat) : String := String.mk (hexChars bs)

/-- Model of BlockchainService.generate_data_hash: keccak-256 of the UTF-8
bytes of json.dumps(data, sort_keys=True, separators=(",", ":")), rendered by
HexBytes hex() as a 0x-prefixed lowercase hex string. -/
def generate_data_hash (data : Doc) : String :=
  "0x" ++ bytesToHex (keccak256Bytes (utf8Encode (dumpJson (canonJson (.obj data)))))



/-! Python dict primitives on documents. -/

/-- Membership test for a top-level key. -/
def hasKeyB (d : Doc) (k : String) : Bool := d.any fun p => p.1 == k

/-- Lookup of a top-level key, as d.get(k). -/
def getKey (d : Doc) (k : String) : Option Json :=
  (d.find? fun p => p.1 == k).map fun p => p.2

/-- Model of the dict update written as a double-splat with one extra entry:
an existing key keeps its position and receives the new value, a fresh key is
appended at the end. -/
def setKey (d : Doc) (k : String) (v : Json) : Doc :=
  if hasKeyB d k then d.map fun p => if p.1 == k then (k, v) else p
  else d ++ [(k, v)]

/-- Model of merging two dicts by double-splat, second overriding first. -/
def mergeDicts (old patch : Doc) : Doc :=
  (old.map fun p =>
    match patch.find? fun q => q.1 == p.1 with
    | some q => (p.1, q.2)
    | none => p) ++
  patch.filter fun q => !(old.any fun p => p.1 == q.1)

/-- The two volatile fields stamped in by the content-store upload. -/
def volatileKeys : List String := ["ipfs_upload_timestamp", "ipfs_version"]

/-- Model of the two pop calls of verify_content_integrity: remove the
volatile fields from the top level of a document. -/
def stripVolatile (d : Doc) : Doc :=
  d.filter fun p => !(p.1 == "ipfs_upload_timestamp" || p.1 == "ipfs_version")

mutual

/-- Size of a JSON value, used as fuel for the equality tests below. -/
def jsize : Json → Nat
  | .str _ => 1
  | .num _ => 1
  | .bool _ => 1
  | .null => 1
  | .arr xs => 1 + jsizeList xs
  | .obj l => 1 + jsizeFields l

/-- Size of a sequence of JSON values. -/
def jsizeList : List Json → Nat
  | [] => 0
  | x :: t => 1 + jsize x + jsizeList t

/-- Size of a field list. -/
def jsizeFields : List (String × Json) → Nat
  | [] => 0
  | p :: t => 1 + jsize p.2 + jsizeFields t

end

/-! Equality of JSON values.  Two notions are modelled: jsonEqBF is the
equality the source actually evaluates, Python ==, under which True equals 1
and False equals 0; mapEqBF is strict equality of finite maps, the relation
the specification words "content-equivalent" and "equal as finite maps"
describe.  Both recurse on an explicit fuel so that they compute by kernel
reduction; fuel jsize a always suffices, as the lemmas below establish. -/

/-- Python == on JSON values, with explicit fuel: mappings are equal when they
have the same size and every entry of the first is matched by key in the
second with an equal value; booleans compare equal to the integers 0 and 1. -/
def jsonEqBF : Nat → Json → Json → Bool
  | 0, _, _ => false
  | fuel + 1, a, b =>
    match a, b with
    | .str x, .str y => x == y
    | .num x, .num y => x == y
    | .bool x, .bool y => x == y
    | .bool x, .num y => (if x then (1 : Int) else 0) == y
    | .num x, .bool y => x == (if y then (1 : Int) else 0)
    | .null, .null => true
    | .arr xs, .arr ys =>
      xs.length == ys.length && (xs.zip ys).all fun p => jsonEqBF fuel p.1 p.2
    | .obj l1, .obj l2 =>
      l1.length == l2.length && l1.all fun p =>
        match l2.find? fun q => q.1 == p.1 with
        | some q => jsonEqBF fuel p.2 q.2
        | none => false
    | _, _ => false

/-- Python == on JSON values, the comparison verify_content_integrity runs. -/
def jsonEqB (a b : Json) : Bool := jsonEqBF (jsize a) a b

/-- Strict equality of JSON values as finite maps, with explicit fuel: like
Python == but without the boolean and integer conflation. -/
def mapEqBF : Nat → Json → Json → Bool
  | 0, _, _ => false
  | fuel + 1, a, b =>
    match a, b with
    | .str x, .str y => x == y
    | .num x, .num y => x == y
    | .bool x, .bool y => x == y
    | .null, .null => true
    | .arr xs, .arr ys =>
      xs.length == ys.length && (xs.zip ys).all fun p => mapEqBF fuel p.1 p.2
    | .obj l1, .obj l2 =>
      l1.length == l2.length && l1.all fun p =>
        match l2.find? fun q => q.1 == p.1 with
        | some q => mapEqBF fuel p.2 q.2
        | none => false
    | _, _ => false

/-- Strict equality of JSON values as finite maps. -/
def mapEqB (a b : Json) : Bool := mapEqBF (jsize a) a b

/-- Key lists without repetition, checked front to back. -/
def nodupKeysB : List (String × Json) → Bool
  | [] => true
  | p :: t => !hasKeyB t p.1 && nodupKeysB t

/-- Wellformedness of a JSON value with explicit fuel: every mapping at every
level has pairwise distinct keys, which holds of every value representable as
a Python object. -/
def wfBF : Nat → Json → Bool
  | 0, _ => false
  | fuel + 1, a =>
    match a with
    | .arr xs => xs.all fun x => wfBF fuel x
    | .obj l => nodupKeysB l && l.all fun p => wfBF fuel p.2
    | _ => true

/-- Wellformedness of a JSON value: distinct keys in every mapping. -/
def wfJson (a : Json) : Bool := wfBF (jsize a) a

/-- Wellformedness of a document. -/
def wfDoc (d : Doc) : Bool := wfJson (.obj d)

/-- Content equivalence of two documents in the sense of the specification:
equal as finite maps after excluding the volatile fields at the top level. -/
def contentEquiv (d1 d2 : Doc) : Bool :=
  mapEqB (.obj (stripVolatile d1)) (.obj (stripVolatile d2))

/-! Models of the IPFS service operations (ipfs_service.py).  Remote calls are
shallowly embedded: the outcome of each network interaction is an input. -/

/-- Model of the metadata dict built by upload_dpp_metadata before the upload:
the input document extended with the upload timestamp and the format version
tag, existing entries under those keys being overwritten. -/
def stampMetadata (dpp_data : Doc) (ts : String) : Doc :=
  setKey (setKey dpp_data "ipfs_upload_timestamp" (.str ts)) "ipfs_version" (.str "1.0")

/-- Result pair of verify_content_integrity: the success flag and the
is_valid flag. -/
structure IntegrityCheck where
  success : Bool
  is_valid : Bool

/-- Model of IPFSService.verify_content_integrity.  The retrieval outcome for
the content identifier is passed in (ok with the stored document, or an
error); on success the retrieved and expected documents are compared by
Python == after popping the two volatile fields from copies of each. -/
def verify_content_integrity (retrieved : Except String Doc) (expected_data : Doc) : IntegrityCheck :=
  match retrieved with
  | .error _ => ⟨false, false⟩
  | .ok retrieved_data =>
    ⟨true, jsonEqB (.obj (stripVolatile retrieved_data)) (.obj (stripVolatile expected_data))⟩

/-- The hash comparison the specification states for the integrity leg of
Verify.  Modelled from the spec: the stored record of the source keeps no
data_hash column, so the stored hash is re-derived from the stored document;
integrity holds when content retrieval succeeded and the hash of the
content-equivalent form of the retrieved document equals it. -/
def specIntegrityOk (retrieved : Except String Doc) (stored : Doc) : Prop :=
  match retrieved with
  | .error _ => False
  | .ok r => generate_data_hash (stripVolatile r) = generate_data_hash (stripVolatile stored)

/-! Models of the DPP service flows (dpp_service.py).  Database state is the
list of passport records; every remote outcome is an environment input. -/

/-- The product row fields the create flow reads. -/
structure ProductInfo where
  id : String
  supplier_id : String
  gtin : Option String

/-- The persisted passport record, with the columns the modelled flows read
and write (timestamps, EPCIS events and the QR relation are not modelled). -/
structure DPPRecord where
  id : String
  product_id : String
  dpp_url : String
  ipfs_cid : String
  blockchain_hash : String
  gs1_digital_link : String
  json_ld_data : Doc

/-- Environment of one create_complete_dpp call: the product lookup outcome,
the generated passport id, the generated JSON-LD document as of the point
where it is uploaded and hashed (metadata generation is time-dependent, and
the optional EPCIS merge is folded into it), and the outcomes of the IPFS
upload and of the blockchain registration. -/
structure CreateEnv where
  product : Option ProductInfo
  dpp_id : String
  json_ld : Doc
  uploadResult : Except String String
  registerResult : Except String String

/-- Outcome of a create_complete_dpp call: the returned triple collapsed to a
result, the database after the call, whether blockchain registration was
attempted, and which content identifiers were pinned. -/
structure CreateOutcome where
  result : Except String DPPRecord
  db : List DPPRecord
  registerAttempted : Bool
  pinned : List String

/-- Model of DPPService.create_complete_dpp: check the product exists, check
no passport exists for the product, upload the document, derive the data
hash, attempt blockchain registration, fall back to a pseudo blockchain hash
built from the data hash when registration fails, persist the record, then
pin the content. -/
def create_complete_dpp (env : CreateEnv) (db : List DPPRecord) (product_id : String) : CreateOutcome :=
  match env.product with
  | none => ⟨.error "Product not found", db, false, []⟩
  | some product =>
    if (db.find? fun r => r.product_id == product_id).isSome then
      ⟨.error "DPP already exists for this product", db, false, []⟩
    else
      match env.uploadResult with
      | .error e => ⟨.error ("IPFS upload failed: " ++ e), db, false, []⟩
      | .ok ipfs_cid =>
        let data_hash := generate_data_hash env.json_ld
        let blockchain_hash :=
          match env.registerResult with
          | .error _ => "0x" ++ data_hash
          | .ok tx_hash => tx_hash
        let dpp : DPPRecord :=
          { id := env.dpp_id
            product_id := product_id
            dpp_url := "https://econetra.com/verify/" ++ env.dpp_id
            ipfs_cid := ipfs_cid
            blockchain_hash := blockchain_hash
            gs1_digital_link := "https://id.gs1.org/01/" ++
              (match product.gtin with
               | some g => g
               | none => "ECONETRA" ++ product.id) ++ "/10/LOT123?linkType=gs1:pip"
            json_ld_data := env.json_ld }
        ⟨.ok dpp, db ++ [dpp], true, [ipfs_cid]⟩

/-- The record of boolean checks verify_dpp_integrity assembles. -/
structure VerificationResult where
  dpp_id : String
  database_check : Bool
  ipfs_check : Bool
  blockchain_check : Bool
  data_integrity : Bool
  overall_valid : Bool

/-- Environment of one verify_dpp_integrity call: the retrieval outcome for
the stored content identifier (used both for the availability check and
inside verify_content_integrity) and the blockchain query outcome, ok
carrying the is_valid flag of verify_dpp_by_cid. -/
structure VerifyEnv where
  retrieveResult : Except String Doc
  ledgerResult : Except String Bool

/-- Model of DPPService.verify_dpp_integrity: look up the record, probe IPFS
retrieval, run the structural integrity comparison against the stored
document, query the blockchain by content identifier, and fold the checks
into overall_valid. -/
def verify_dpp_integrity (env : VerifyEnv) (db : List DPPRecord) (dpp_id : String) :
    Except String VerificationResult :=
  match db.find? fun r => r.id == dpp_id with
  | none => .error "DPP not found"
  | some dpp =>
    let ipfs_check := match env.retrieveResult with
      | .ok _ => true
      | .error _ => false
    let integrity := verify_content_integrity env.retrieveResult dpp.json_ld_data
    let data_integrity := ipfs_check && (integrity.success && integrity.is_valid)
    let blockchain_check := match env.ledgerResult with
      | .ok is_valid => is_valid
      | .error _ => false
    .ok
      { dpp_id := dpp_id
        database_check := true
        ipfs_check := ipfs_check
        blockchain_check := blockchain_check
        data_integrity := data_integrity
        overall_valid := true && ipfs_check && data_integrity && blockchain_check }

/-- The four-state verdict of the specification. -/
inductive Verdict where
  | valid
  | degraded
  | invalid
  | unverifiable
deriving DecidableEq

/-- Modelled from the spec: the verdict policy over the checks Verify
computes.  Valid when everything holds, Unverifiable when content retrieval
failed, Invalid when content was retrieved but does not match the recorded
content, Degraded when only the ledger leg is unconfirmed. -/
def verdictOf (r : VerificationResult) : Verdict :=
  if r.overall_valid then .valid
  else if !r.ipfs_check then .unverifiable
  else if !r.data_integrity then .invalid
  else .degraded

/-- Environment of one update_dpp_metadata call: the timestamp stamped into
the merged document and the outcome of the IPFS upload of the new version. -/
structure UpdateEnv where
  now : String
  uploadResult : Except String String

/-- Returned fields of a successful update_dpp_metadata call. -/
structure UpdateResult where
  dpp_id : String
  new_ipfs_cid : String
  new_data_hash : String

/-- Outcome of an update_dpp_metadata call: the result, the database after
the call, and which content identifiers were pinned and unpinned. -/
structure UpdateOutcome where
  result : Except String UpdateResult
  db : List DPPRecord
  pinned : List String
  unpinned : List String

/-- Model of DPPService.update_dpp_metadata: look up the record by passport
id, merge the patch over the stored document by double-splat, stamp the
update timestamp, upload the merged document, recompute the data hash,
replace the content identifier and document on the existing record, and pin
the new content.  No blockchain call is made and nothing is unpinned. -/
def update_dpp_metadata (env : UpdateEnv) (db : List DPPRecord) (dpp_id : String)
    (updated_data : Doc) : UpdateOutcome :=
  match db.find? fun r => r.id == dpp_id with
  | none => ⟨.error "DPP not found", db, [], []⟩
  | some dpp =>
    let updated_json_ld := setKey (mergeDicts dpp.json_ld_data updated_data) "dpp:updatedAt" (.str env.now)
    match env.uploadResult with
    | .error e => ⟨.error ("IPFS upload failed: " ++ e), db, [], []⟩
    | .ok new_ipfs_cid =>
      let new_data_hash := generate_data_hash updated_json_ld
      let db2 := db.map fun r =>
        if r.id == dpp_id then
          { r with ipfs_cid := new_ipfs_cid, json_ld_data := updated_json_ld }
        else r
      ⟨.ok ⟨dpp_id, new_ipfs_cid, new_data_hash⟩, db2, [new_ipfs_cid], []⟩

/-! Order theory for the key comparison. -/

/-- Characters with equal code points are equal. -/
theorem char_toNat_inj {x y : Char} (h : x.toNat = y.toNat) : x = y :=
  Char.ext (UInt32.ext h)

/-- The key order is asymmetric. -/
theorem charListLt_asymm : ∀ a b : List Char, charListLt a b = true → charListLt b a = false := by
  intro a
  induction a with
  | nil => intro b h; cases b <;> simp [charListLt]
  | cons x xs ih =>
    intro b h
    cases b with
    | nil => simp [charListLt] at h
    | cons y ys =>
      by_cases h1 : x.toNat < y.toNat
      · simp [charListLt, h1, Nat.lt_asymm h1]
      · by_cases h2 : y.toNat < x.toNat
        · simp [charListLt, h1, h2] at h
        · simp [charListLt, h1, h2] at h ⊢
          exact ih ys h

/-- Transitivity of the reflexive key order. -/
theorem charListLt_le_trans :
    ∀ a b c : List Char, charListLt b a = false → charListLt c b = false → charListLt c a = false := by
  intro a
  induction a with
  | nil =>
    intro b c _ _
    cases c with
    | nil => simp [charListLt]
    | cons z zs => simp [charListLt]
  | cons x xs ih =>
    intro b c h1 h2
    cases b with
    | nil => simp [charListLt] at h1
    | cons y ys =>
      cases c with
      | nil => simp [charListLt] at h2
      | cons z zs =>
        by_cases hyx : y.toNat < x.toNat
        · simp [charListLt, hyx] at h1
        · by_cases hzy : z.toNat < y.toNat
          · simp [charListLt, hzy] at h2
          · by_cases hzx : z.toNat < x.toNat
            · omega
            · by_cases hxz : x.toNat < z.toNat
              · simp [charListLt, hzx, hxz]
              · have hxy : ¬ x.toNat < y.toNat := by omega
                have hyz : ¬ y.toNat < z.toNat := by omega
                simp [charListLt, hyx, hxy] at h1
                simp [charListLt, hzy, hyz] at h2
                simp [charListLt, hzx, hxz]
                exact ih ys zs h1 h2

/-- Lists unordered in both directions are equal. -/
theorem charListLt_conn : ∀ a b : List Char, charListLt a b = false → charListLt b a = false → a = b := by
  intro a
  induction a with
  | nil =>
    intro b h1 _
    cases b with
    | nil => rfl
    | cons y ys => simp [charListLt] at h1
  | cons x xs ih =>
    intro b h1 h2
    cases b with
    | nil => simp [charListLt] at h2
    | cons y ys =>
      by_cases hxy : x.toNat < y.toNat
      · simp [charListLt, hxy] at h1
      · by_cases hyx : y.toNat < x.toNat
        · simp [charListLt, hyx] at h2
        · simp [charListLt, hxy, hyx] at h1 h2
          have hx : x = y := char_toNat_inj (by omega)
          rw [hx, ih ys h1 h2]

/-- Asymmetry at the key level. -/
theorem keyLt_asymm {a b : String} (h : keyLt a b = true) : keyLt b a = false :=
  charListLt_asymm a.data b.data h

/-- Transitivity of the reflexive order at the key level. -/
theorem keyLt_le_trans {a b c : String} (h1 : keyLt b a = false) (h2 : keyLt c b = false) :
    keyLt c a = false :=
  charListLt_le_trans a.data b.data c.data h1 h2

/-- Keys unordered in both directions are equal. -/
theorem keyLt_conn {a b : String} (h1 : keyLt a b = false) (h2 : keyLt b a = false) : a = b := by
  cases a with
  | mk da =>
    cases b with
    | mk db => exact congrArg String.mk (charListLt_conn da db h1 h2)

/-- The reflexive order between entries used to state sortedness. -/
def pairLe (p q : String × Json) : Prop := keyLt q.1 p.1 = false

/-- The strict order between entries with distinct keys. -/
def pairLt (p q : String × Json) : Prop := keyLt p.1 q.1 = true

/-- Inserting permutes the entry onto the list. -/
theorem insertPair_perm (p : String × Json) : ∀ l, (insertPair p l).Perm (p :: l) := by
  intro l
  induction l with
  | nil => simp [insertPair]
  | cons q t ih =>
    by_cases h : keyLt q.1 p.1 = true
    · simp only [insertPair, h, if_pos]
      exact ((ih.cons q).trans (List.Perm.swap p q t))
    · simp only [insertPair, h, if_neg]
      exact List.Perm.refl _

/-- Sorting permutes the list. -/
theorem sortPairs_perm : ∀ l, (sortPairs l).Perm l := by
  intro l
  induction l with
  | nil => exact List.Perm.refl _
  | cons p t ih => exact (insertPair_perm p (sortPairs t)).trans (ih.cons p)

/-- Members of an insertion are the entry or members of the list. -/
theorem mem_insertPair {x p : String × Json} {l : List (String × Json)}
    (h : x ∈ insertPair p l) : x = p ∨ x ∈ l := by
  have := (insertPair_perm p l).mem_iff.mp h
  simpa using this

/-- Insertion preserves sortedness. -/
theorem insertPair_pairwise {p : String × Json} {l : List (String × Json)}
    (h : List.Pairwise pairLe l) : List.Pairwise pairLe (insertPair p l) := by
  induction l with
  | nil => simp [insertPair]
  | cons q t ih =>
    rcases List.pairwise_cons.mp h with ⟨hq, ht⟩
    by_cases hc : keyLt q.1 p.1 = true
    · simp only [insertPair, hc, if_pos]
      refine List.pairwise_cons.mpr ⟨?_, ih ht⟩
      intro x hx
      rcases mem_insertPair hx with rfl | hx2
      · exact keyLt_asymm hc
      · exact hq x hx2
    · simp only [insertPair, hc, if_neg]
      have hple : keyLt q.1 p.1 = false := by
        cases hval : keyLt q.1 p.1 with
        | false => rfl
        | true => exact absurd hval hc
      refine List.pairwise_cons.mpr ⟨?_, h⟩
      intro x hx
      rcases List.mem_cons.mp hx with rfl | hx2
      · exact hple
      · exact keyLt_le_trans hple (hq x hx2)

/-- The sort output is sorted. -/
theorem sortPairs_pairwise : ∀ l, List.Pairwise pairLe (sortPairs l) := by
  intro l
  induction l with
  | nil => simp [sortPairs]
  | cons p t ih => exact insertPair_pairwise ih

/-- A sorted list with distinct keys is strictly sorted. -/
theorem pairwise_lt_of_le_nodup {l : List (String × Json)}
    (h : List.Pairwise pairLe l) (hnd : (l.map Prod.fst).Nodup) : List.Pairwise pairLt l := by
  have hne : List.Pairwise (fun p q : String × Json => p.1 ≠ q.1) l := List.pairwise_map.mp hnd
  refine (h.and hne).imp ?_
  intro p q hpq
  rcases hpq with ⟨hle, hne2⟩
  cases hval : keyLt p.1 q.1 with
  | true => exact hval
  | false => exact absurd (keyLt_conn hval hle) hne2

/-- Two strictly sorted permutations coincide. -/
theorem sorted_perm_eq :
    ∀ l1 l2 : List (String × Json), l1.Perm l2 →
      List.Pairwise pairLt l1 → List.Pairwise pairLt l2 → l1 = l2 := by
  intro l1
  induction l1 with
  | nil =>
    intro l2 hperm _ _
    exact (List.perm_nil.mp hperm.symm).symm
  | cons x t1 ih =>
    intro l2 hperm h1 h2
    cases l2 with
    | nil => exact absurd (List.perm_nil.mp hperm) (by simp)
    | cons y t2 =>
      rcases List.pairwise_cons.mp h1 with ⟨hx, ht1⟩
      rcases List.pairwise_cons.mp h2 with ⟨hy, ht2⟩
      rcases Classical.em (x = y) with rfl | hne
      · rw [ih t2 hperm.cons_inv ht1 ht2]
      · have hxmem : x ∈ y :: t2 := hperm.mem_iff.mp (List.mem_cons_self x t1)
        have hxt2 : x ∈ t2 := by
          rcases List.mem_cons.mp hxmem with h | h
          · exact absurd h hne
          · exact h
        have hymem : y ∈ x :: t1 := hperm.mem_iff.mpr (List.mem_cons_self y t2)
        have hyt1 : y ∈ t1 := by
          rcases List.mem_cons.mp hymem with h | h
          · exact absurd h.symm hne
          · exact h
        have hlt1 : pairLt x y := hx y hyt1
        have hlt2 : pairLt y x := hy x hxt2
        exact absurd hlt2 (by simp [pairLt, keyLt_asymm hlt1])

/-! Size bounds and small bridging lemmas. -/

/-- Every JSON value has positive size. -/
theorem jsize_pos : ∀ a : Json, 1 ≤ jsize a := by
  intro a
  cases a <;> simp [jsize]

/-- A member of a sequence is bounded by the sequence size. -/
theorem jsize_le_of_mem_list : ∀ {xs : List Json} {x : Json}, x ∈ xs → jsize x ≤ jsizeList xs := by
  intro xs
  induction xs with
  | nil => intro x h; cases h
  | cons y ys ih =>
    intro x h
    rcases List.mem_cons.mp h with rfl | h2
    · simp [jsizeList]; omega
    · have := ih h2
      simp [jsizeList]; omega

/-- A member value of a field list is bounded by the field list size. -/
theorem jsize_le_of_mem_fields :
    ∀ {l : List (String × Json)} {p : String × Json}, p ∈ l → jsize p.2 ≤ jsizeFields l := by
  intro l
  induction l with
  | nil => intro p h; cases h
  | cons q t ih =>
    intro p h
    rcases List.mem_cons.mp h with rfl | h2
    · simp [jsizeFields]; omega
    · have := ih h2
      simp [jsizeFields]; omega

/-- The Boolean key-distinctness test agrees with Nodup on the key list. -/
theorem nodupKeysB_iff : ∀ l : List (String × Json), nodupKeysB l = true ↔ (l.map Prod.fst).Nodup := by
  intro l
  induction l with
  | nil => simp [nodupKeysB]
  | cons p t ih =>
    simp only [nodupKeysB, Bool.and_eq_true, Bool.not_eq_true', List.map_cons, List.nodup_cons, ih]
    constructor
    · rintro ⟨h1, h2⟩
      refine ⟨?_, h2⟩
      intro hmem
      rcases List.mem_map.mp hmem with ⟨q, hq, hq1⟩
      have : hasKeyB t p.1 = true := List.any_eq_true.mpr ⟨q, hq, by simp [hq1]⟩
      rw [this] at h1
      cases h1
    · rintro ⟨h1, h2⟩
      refine ⟨?_, h2⟩
      cases hval : hasKeyB t p.1 with
      | false => rfl
      | true =>
        rcases List.any_eq_true.mp hval with ⟨q, hq, hq1⟩
        exact absurd (List.mem_map.mpr ⟨q, hq, by simpa using hq1⟩) h1

/-- With distinct keys, find? by key returns exactly the member with that key. -/
theorem nodup_find_unique :
    ∀ {l : List (String × Json)} {k : String} {w : Json},
      (l.map Prod.fst).Nodup → (k, w) ∈ l → (l.find? fun q => q.1 == k) = some (k, w) := by
  intro l
  induction l with
  | nil => intro k w _ h; cases h
  | cons p t ih =>
    intro k w hnd hmem
    rw [List.map_cons] at hnd
    rcases List.nodup_cons.mp hnd with ⟨hp, ht⟩
    by_cases hk : p.1 = k
    · have hpw : p = (k, w) := by
        rcases List.mem_cons.mp hmem with h | h
        · exact h.symm
        · rw [hk] at hp
          exact absurd (List.mem_map.mpr ⟨(k, w), h, rfl⟩) hp
      rw [@List.find?_cons_of_pos _ (fun q => q.1 == k) p t (by simp [hk]), hpw]
    · have hmem2 : (k, w) ∈ t := by
        rcases List.mem_cons.mp hmem with h | h
        · exact absurd (congrArg Prod.fst h.symm) hk
        · exact h
      rw [@List.find?_cons_of_neg _ (fun q => q.1 == k) p t (by simp [hk])]
      exact ih ht hmem2

/-- canonFields is the map canonicalizing each value. -/
theorem canonFields_map : ∀ l : List (String × Json), canonFields l = l.map fun p => (p.1, canonJson p.2) := by
  intro l
  induction l with
  | nil => simp [canonFields]
  | cons p t ih => simp [canonFields, ih]

/-- canonFields preserves the key list. -/
theorem canonFields_keys : ∀ l : List (String × Json), (canonFields l).map Prod.fst = l.map Prod.fst := by
  intro l
  rw [canonFields_map, List.map_map]
  exact List.map_congr_left fun p _ => rfl

/-! The central determinism lemma: strict finite-map equality of wellformed
JSON values is mapped to syntactic equality by canonicalization. -/

/-- Fuel-indexed form of the determinism lemma. -/
theorem canon_eq_of_mapEqF :
    ∀ f : Nat, ∀ a b : Json, ∀ g1 g2 : Nat, jsize a ≤ f →
      wfBF g1 a = true → wfBF g2 b = true → mapEqBF f a b = true →
      canonJson a = canonJson b := by
  intro f
  induction f with
  | zero =>
    intro a b g1 g2 hsz
    exact fun _ _ _ => absurd hsz (by have := jsize_pos a; omega)
  | succ f ih =>
    intro a b g1 g2 hsz hw1 hw2 heq
    cases a with
    | str x =>
      cases b <;> simp [mapEqBF] at heq
      rw [heq]
    | num x =>
      cases b <;> simp [mapEqBF] at heq
      rw [heq]
    | bool x =>
      cases b <;> simp [mapEqBF] at heq
      rw [heq]
    | null =>
      cases b <;> simp [mapEqBF] at heq
      rfl
    | arr xs =>
      cases b <;> simp [mapEqBF] at heq
      case arr ys =>
      rcases heq with ⟨hlen, hpt⟩
      cases g1 with
      | zero => simp [wfBF] at hw1
      | succ g1 =>
      cases g2 with
      | zero => simp [wfBF] at hw2
      | succ g2 =>
      simp only [wfBF, List.all_eq_true] at hw1 hw2
      have hszl : jsizeList xs ≤ f := by simp [jsize] at hsz; omega
      simp only [canonJson]
      congr 1
      clear hsz
      induction xs generalizing ys with
      | nil =>
        cases ys with
        | nil => rfl
        | cons y t => simp at hlen
      | cons x t ihl =>
        cases ys with
        | nil => simp at hlen
        | cons y t2 =>
          simp only [canonList]
          have hx : canonJson x = canonJson y := by
            refine ih x y g1 g2 ?_ (hw1 x (by simp)) (hw2 y (by simp)) ?_
            · simp [jsizeList] at hszl ⊢; omega
            · exact hpt x y (by simp [List.zip_cons_cons])
          rw [hx]
          congr 1
          refine ihl t2 (by simpa using hlen)
            (fun a b hab => hpt a b (by simp [List.zip_cons_cons, hab]))
            (fun p hp => hw1 p (by simp [hp]))
            (fun q hq => hw2 q (by simp [hq]))
            (by simp [jsizeList] at hszl ⊢; omega)
    | obj l1 =>
      cases b <;> simp [mapEqBF] at heq
      case obj l2 =>
      rcases heq with ⟨hlen, hpt⟩
      cases g1 with
      | zero => simp [wfBF] at hw1
      | succ g1 =>
      cases g2 with
      | zero => simp [wfBF] at hw2
      | succ g2 =>
      simp only [wfBF, Bool.and_eq_true, List.all_eq_true] at hw1 hw2
      rcases hw1 with ⟨hnd1b, hw1⟩
      rcases hw2 with ⟨hnd2b, hw2⟩
      have hnd1 : (l1.map Prod.fst).Nodup := (nodupKeysB_iff l1).mp hnd1b
      have hnd2 : (l2.map Prod.fst).Nodup := (nodupKeysB_iff l2).mp hnd2b
      have hszf : jsizeFields l1 ≤ f := by simp [jsize] at hsz; omega
      have hfind : ∀ p ∈ l1, ∃ q, (l2.find? fun r => r.1 == p.1) = some q ∧
          q ∈ l2 ∧ q.1 = p.1 ∧ mapEqBF f p.2 q.2 = true := by
        intro p hp
        have hm := hpt p.1 p.2 (by simpa using hp)
        cases hfq : l2.find? fun r => r.1 == p.1 with
        | none => rw [hfq] at hm; simp at hm
        | some q =>
          rw [hfq] at hm
          simp only [] at hm
          exact ⟨q, rfl, List.mem_of_find?_eq_some hfq, by simpa using List.find?_some hfq, hm⟩
      have hkeys : l1.map Prod.fst ⊆ l2.map Prod.fst := by
        intro k hk
        rcases List.mem_map.mp hk with ⟨p, hp, rfl⟩
        rcases hfind p hp with ⟨q, _, hq2, hq3, _⟩
        exact List.mem_map.mpr ⟨q, hq2, hq3⟩
      have hkeysperm : (l1.map Prod.fst).Perm (l2.map Prod.fst) :=
        (hnd1.subperm hkeys).perm_of_length_le (by simp [hlen])
      have hsub1 : ∀ x ∈ canonFields l1, x ∈ canonFields l2 := by
        intro x hx
        rw [canonFields_map] at hx
        rcases List.mem_map.mp hx with ⟨p, hp, rfl⟩
        rcases hfind p hp with ⟨q, _, hq2, hq3, hq4⟩
        have hc : canonJson p.2 = canonJson q.2 := by
          refine ih p.2 q.2 g1 g2 ?_ (hw1 p hp) (hw2 q hq2) hq4
          have := jsize_le_of_mem_fields hp
          omega
        rw [canonFields_map]
        refine List.mem_map.mpr ⟨q, hq2, ?_⟩
        show (q.1, canonJson q.2) = (p.1, canonJson p.2)
        rw [hq3, hc]
      have hsub2 : ∀ x ∈ canonFields l2, x ∈ canonFields l1 := by
        intro x hx
        rw [canonFields_map] at hx
        rcases List.mem_map.mp hx with ⟨q, hq, rfl⟩
        have hkmem : q.1 ∈ l1.map Prod.fst :=
          hkeysperm.mem_iff.mpr (List.mem_map.mpr ⟨q, hq, rfl⟩)
        rcases List.mem_map.mp hkmem with ⟨p, hp, hpk⟩
        rcases hfind p hp with ⟨q2, hq2find, hq2mem, hq2key, hq2eq⟩
        have hqeta : q = (p.1, q.2) := by
          rw [hpk]
        have hmemq : (p.1, q.2) ∈ l2 := hqeta ▸ hq
        have huniq := nodup_find_unique hnd2 hmemq
        rw [huniq] at hq2find
        have hq2is : q2 = (p.1, q.2) := (Option.some_inj.mp hq2find).symm
        have hc : canonJson p.2 = canonJson q.2 := by
          refine ih p.2 q.2 g1 g2 ?_ (hw1 p hp) (hw2 q hq) ?_
          · have := jsize_le_of_mem_fields hp
            omega
          · rw [hq2is] at hq2eq
            exact hq2eq
        rw [canonFields_map]
        refine List.mem_map.mpr ⟨p, hp, ?_⟩
        show (p.1, canonJson p.2) = (q.1, canonJson q.2)
        rw [hpk, hc]
      have hcnd1 : (canonFields l1).Nodup :=
        List.Nodup.of_map Prod.fst (by rw [canonFields_keys]; exact hnd1)
      have hcnd2 : (canonFields l2).Nodup :=
        List.Nodup.of_map Prod.fst (by rw [canonFields_keys]; exact hnd2)
      have hperm : (canonFields l1).Perm (canonFields l2) :=
        (List.perm_ext_iff_of_nodup hcnd1 hcnd2).mpr fun x => ⟨hsub1 x, hsub2 x⟩
      simp only [canonJson]
      congr 1
      refine sorted_perm_eq _ _ ?_ ?_ ?_
      · exact (sortPairs_perm _).trans (hperm.trans (sortPairs_perm _).symm)
      · refine pairwise_lt_of_le_nodup (sortPairs_pairwise _) ?_
        have hp2 : ((sortPairs (canonFields l1)).map Prod.fst).Perm ((canonFields l1).map Prod.fst) :=
          (sortPairs_perm _).map Prod.fst
        rw [hp2.nodup_iff, canonFields_keys]
        exact hnd1
      · refine pairwise_lt_of_le_nodup (sortPairs_pairwise _) ?_
        have hp2 : ((sortPairs (canonFields l2)).map Prod.fst).Perm ((canonFields l2).map Prod.fst) :=
          (sortPairs_perm _).map Prod.fst
        rw [hp2.nodup_iff, canonFields_keys]
        exact hnd2

/-- Determinism of canonicalization: wellformed JSON values equal as finite
maps have identical canonical forms. -/
theorem canon_eq_of_mapEq {a b : Json} (hw1 : wfJson a = true) (hw2 : wfJson b = true)
    (heq : mapEqB a b = true) : canonJson a = canonJson b :=
  canon_eq_of_mapEqF (jsize a) a b (jsize a) (jsize b) le_rfl hw1 hw2 heq

/-- Strict finite-map equality implies the Python == the source evaluates. -/
theorem jsonEq_of_mapEqF : ∀ f : Nat, ∀ a b : Json, mapEqBF f a b = true → jsonEqBF f a b = true := by
  intro f
  induction f with
  | zero => intro a b h; simp [mapEqBF] at h
  | succ f ih =>
    intro a b h
    cases a with
    | str x =>
      cases b <;> simp [mapEqBF] at h
      simp [jsonEqBF, h]
    | num x =>
      cases b <;> simp [mapEqBF] at h
      simp [jsonEqBF, h]
    | bool x =>
      cases b <;> simp [mapEqBF] at h
      simp [jsonEqBF, h]
    | null =>
      cases b <;> simp [mapEqBF] at h
      simp [jsonEqBF]
    | arr xs =>
      cases b <;> simp [mapEqBF] at h
      case arr ys =>
      rcases h with ⟨hlen, hpt⟩
      simp only [jsonEqBF, Bool.and_eq_true, List.all_eq_true]
      refine ⟨by simp [hlen], ?_⟩
      intro p hp
      exact ih p.1 p.2 (hpt p.1 p.2 (by simpa using hp))
    | obj l1 =>
      cases b <;> simp [mapEqBF] at h
      case obj l2 =>
      rcases h with ⟨hlen, hpt⟩
      simp only [jsonEqBF, Bool.and_eq_true, List.all_eq_true]
      refine ⟨by simp [hlen], ?_⟩
      intro p hp
      have hm := hpt p.1 p.2 (by simpa using hp)
      cases hfq : l2.find? fun r => r.1 == p.1 with
      | none => rw [hfq] at hm; simp at hm
      | some q =>
        rw [hfq] at hm
        simp only [] at hm ⊢
        exact ih p.2 q.2 hm

/-- Canonically equal documents receive the same data hash. -/
theorem generate_data_hash_eq_of_canon {d1 d2 : Doc}
    (h : canonJson (.obj d1) = canonJson (.obj d2)) :
    generate_data_hash d1 = generate_data_hash d2 := by
  simp [generate_data_hash, h]

/-! Shape of the rendered digest. -/

/-- Hex rendering produces two characters per byte. -/
theorem hexChars_length : ∀ bs : List Nat, (hexChars bs).length = 2 * bs.length := by
  intro bs
  induction bs with
  | nil => simp [hexChars]
  | cons b t ih => simp [hexChars, ih]; omega

/-- The squeezed digest is 32 bytes. -/
theorem keccak256Bytes_length (m : List Nat) : (keccak256Bytes m).length = 32 := by
  simp [keccak256Bytes, laneToBytes]

/-- Every squeezed digest byte is below 256. -/
theorem keccak256Bytes_lt (m : List Nat) : ∀ b ∈ keccak256Bytes m, b < 256 := by
  intro b hb
  simp [keccak256Bytes, laneToBytes] at hb
  omega

/-- Length of a hex string of bytes. -/
theorem bytesToHex_length (bs : List Nat) : (bytesToHex bs).length = 2 * bs.length := by
  have h : (bytesToHex bs).length = (hexChars bs).length := rfl
  rw [h, hexChars_length]

/-- Lowercase hexadecimal digits. -/
def isHexDigitChar (c : Char) : Bool :=
  (48 ≤ c.toNat && c.toNat ≤ 57) || (97 ≤ c.toNat && c.toNat ≤ 102)

/-- Digit characters of bytes are hexadecimal digits. -/
theorem hexChars_hex : ∀ bs : List Nat, (∀ b ∈ bs, b < 256) →
    ∀ c ∈ hexChars bs, isHexDigitChar c = true := by
  have digit : ∀ n : Nat, n < 16 →
      isHexDigitChar (if n < 10 then Char.ofNat (48 + n) else Char.ofNat (87 + n)) = true := by
    intro n hn
    interval_cases n <;> decide
  intro bs
  induction bs with
  | nil => intro _ c hc; cases hc
  | cons b t ih =>
    intro hlt c hc
    rcases List.mem_cons.mp hc with rfl | hc2
    · exact digit (b / 16) (by have := hlt b (by simp); omega)
    · rcases List.mem_cons.mp hc2 with rfl | hc3
      · exact digit (b % 16) (by omega)
      · exact ih (fun x hx => hlt x (by simp [hx])) c hc3

/-- The data hash is 66 characters long. -/
theorem generate_data_hash_length (d : Doc) : (generate_data_hash d).length = 66 := by
  have h : (generate_data_hash d).length =
      ("0x".length + (bytesToHex (keccak256Bytes (utf8Encode (dumpJson (canonJson (.obj d)))))).length) := by
    rw [generate_data_hash, String.length_append]
  rw [h, bytesToHex_length, keccak256Bytes_length]
  rfl

/-! Dictionary update lemmas. -/

/-- find? only depends on the predicate values on members. -/
theorem find?_congr_mem {α : Type} {p q : α → Bool} :
    ∀ {l : List α}, (∀ a ∈ l, p a = q a) → l.find? p = l.find? q := by
  intro l
  induction l with
  | nil => intro _; rfl
  | cons x t ih =>
    intro h
    rw [List.find?_cons, List.find?_cons, h x (by simp)]
    cases q x with
    | true => rfl
    | false => exact ih fun a ha => h a (by simp [ha])

/-- any only depends on the predicate values on members. -/
theorem any_congr_mem {α : Type} {p q : α → Bool} :
    ∀ {l : List α}, (∀ a ∈ l, p a = q a) → l.any p = l.any q := by
  intro l
  induction l with
  | nil => intro _; rfl
  | cons x t ih =>
    intro h
    rw [List.any_cons, List.any_cons, h x (by simp), ih fun a ha => h a (by simp [ha])]

/-- Key equality testing is symmetric. -/
theorem strBeq_comm (a b : String) : (a == b) = (b == a) := by
  by_cases h : a = b
  · simp [h]
  · rw [beq_eq_false_iff_ne.mpr h, beq_eq_false_iff_ne.mpr (Ne.symm h)]

/-- Looking up the key just written returns the written value. -/
theorem getKey_setKey_same (d : Doc) (k : String) (v : Json) : getKey (setKey d k v) k = some v := by
  unfold setKey getKey
  cases hval : hasKeyB d k with
  | false =>
    simp only [hval, Bool.false_eq_true, if_false]
    have hnone : (d.find? fun p => p.1 == k) = none := by
      refine List.find?_eq_none.mpr ?_
      intro p hp hpk
      have hh : hasKeyB d k = true := List.any_eq_true.mpr ⟨p, hp, hpk⟩
      rw [hval] at hh
      cases hh
    rw [List.find?_append, hnone]
    simp [List.find?]
  | true =>
    simp only [hval, if_true]
    rw [List.find?_map]
    have hcongr : (d.find? ((fun p : String × Json => p.1 == k) ∘ fun p => if p.1 == k then (k, v) else p))
        = d.find? fun p => p.1 == k := by
      refine find?_congr_mem ?_
      intro p _
      by_cases hpe : p.1 = k
      · simp [Function.comp, hpe]
      · simp [Function.comp, beq_eq_false_iff_ne.mpr hpe]
    rw [hcongr]
    rcases List.any_eq_true.mp hval with ⟨p, hp, hpk⟩
    have hsome : ∃ q, (d.find? fun p => p.1 == k) = some q := by
      cases hf : d.find? fun p => p.1 == k with
      | none => exact absurd hpk (by simpa using List.find?_eq_none.mp hf p hp)
      | some q => exact ⟨q, rfl⟩
    rcases hsome with ⟨q, hq⟩
    have hqk := List.find?_some hq
    have hqe : q.1 = k := by simpa using hqk
    rw [hq]
    simp [hqe]

/-- Writing one key leaves the lookup of every other key unchanged. -/
theorem getKey_setKey_other (d : Doc) (k k2 : String) (v : Json) (h : k2 ≠ k) :
    getKey (setKey d k v) k2 = getKey d k2 := by
  unfold setKey getKey
  cases hval : hasKeyB d k with
  | false =>
    simp only [hval, Bool.false_eq_true, if_false]
    rw [List.find?_append]
    have hone : (([((k, v) : String × Json)]).find? fun p => p.1 == k2) = none := by
      rw [List.find?_cons]
      have hck : ((k, v).1 == k2) = false := beq_eq_false_iff_ne.mpr fun he => h he.symm
      rw [hck]
      rfl
    rw [hone]
    cases d.find? fun p => p.1 == k2 <;> rfl
  | true =>
    simp only [hval, if_true]
    rw [List.find?_map]
    have hcongr : (d.find? ((fun p : String × Json => p.1 == k2) ∘ fun p => if p.1 == k then (k, v) else p))
        = d.find? fun p => p.1 == k2 := by
      refine find?_congr_mem ?_
      intro p _
      by_cases hpe : p.1 = k
      · simp [Function.comp, hpe, beq_eq_false_iff_ne.mpr (fun he => h he.symm)]
      · simp [Function.comp, beq_eq_false_iff_ne.mpr hpe]
    rw [hcongr]
    cases hf : d.find? fun p => p.1 == k2 with
    | none => rfl
    | some q =>
      have hqk := List.find?_some hf
      have hqe : q.1 = k2 := by simpa using hqk
      have hqne : ¬ (q.1 = k) := by rw [hqe]; exact h
      simp [beq_eq_false_iff_ne.mpr hqne, if_neg hqne]

/-- Key membership after a write: the written key joins the previous keys. -/
theorem hasKeyB_setKey (d : Doc) (k k2 : String) (v : Json) :
    hasKeyB (setKey d k v) k2 = (hasKeyB d k2 || k2 == k) := by
  unfold setKey
  cases hval : hasKeyB d k with
  | false =>
    simp only [hval, Bool.false_eq_true, if_false]
    unfold hasKeyB
    rw [List.any_append]
    have hone : (([((k, v) : String × Json)]).any fun p => p.1 == k2) = (k2 == k) := by
      simp only [List.any_cons, List.any_nil, Bool.or_false]
      exact strBeq_comm k k2
    rw [hone]
  | true =>
    simp only [hval, if_true]
    unfold hasKeyB
    rw [List.any_map]
    by_cases hc : k2 = k
    · subst hc
      rw [beq_iff_eq.mpr rfl]
      simp only [Bool.or_true]
      rcases List.any_eq_true.mp hval with ⟨p, hp, hp2⟩
      refine List.any_eq_true.mpr ⟨p, hp, ?_⟩
      have hpe : p.1 = k2 := by simpa using hp2
      simp [Function.comp, hpe]
    · rw [beq_eq_false_iff_ne.mpr hc]
      simp only [Bool.or_false]
      refine any_congr_mem ?_
      intro p _
      by_cases hpe : p.1 = k
      · have h1 : (p.1 == k2) = false := beq_eq_false_iff_ne.mpr (by rw [hpe]; exact fun he => hc he.symm)
        have h2 : (k == k2) = false := beq_eq_false_iff_ne.mpr fun he => hc he.symm
        simp [Function.comp, hpe, h1, h2]
      · simp [Function.comp, beq_eq_false_iff_ne.mpr hpe]

/-! Verdict policy lemmas. -/

/-- The spec verdict is Valid exactly when the folded flag holds. -/
theorem verdictOf_valid_iff (r : VerificationResult) :
    verdictOf r = .valid ↔ r.overall_valid = true := by
  unfold verdictOf
  cases hov : r.overall_valid with
  | true => simp
  | false =>
    simp only [Bool.false_eq_true, if_false]
    cases hi : r.ipfs_check with
    | false => simp
    | true =>
      simp only [Bool.not_true, Bool.false_eq_true, if_false]
      cases hd : r.data_integrity with
      | false => simp
      | true => simp

/-- The verdict always lies in the closed four-state enumeration. -/
theorem verdictOf_closed (r : VerificationResult) :
    verdictOf r = .valid ∨ verdictOf r = .degraded ∨ verdictOf r = .invalid ∨
      verdictOf r = .unverifiable := by
  unfold verdictOf
  cases hov : r.overall_valid with
  | true => simp
  | false =>
    simp only [Bool.false_eq_true, if_false]
    cases hi : r.ipfs_check with
    | false => simp
    | true =>
      simp only [Bool.not_true, Bool.false_eq_true, if_false]
      cases hd : r.data_integrity with
      | false => simp
      | true => simp

/-! Claims C1, C2, C5, C9 and C10. -/

/-- C5: for every two wellformed metadata documents that are equal as finite
maps (the same key-value pairs at every nesting level, in any insertion
order), generate_data_hash returns identical digests, because every mapping
is recursively sorted by key before serialization. -/
theorem C5_key_order_determinism (d1 d2 : Doc)
    (hw1 : wfDoc d1 = true) (hw2 : wfDoc d2 = true)
    (heq : mapEqB (.obj d1) (.obj d2) = true) :
    generate_data_hash d1 = generate_data_hash d2 :=
  generate_data_hash_eq_of_canon (canon_eq_of_mapEq hw1 hw2 heq)

/-- Concrete C5 instance: two insertion orders of one document. -/
def c5doc1 : Doc := [("name", .str "Shirt"), ("material", .obj [("cotton", .num 80), ("polyester", .num 20)])]

/-- The same document with the mapping keys inserted in a different order. -/
def c5doc2 : Doc := [("material", .obj [("polyester", .num 20), ("cotton", .num 80)]), ("name", .str "Shirt")]

/-- C5 witness: the hypotheses hold at a concrete pair of documents. -/
theorem C5_key_order_determinism_witness :
    (wfDoc c5doc1 = true ∧ wfDoc c5doc2 = true ∧ mapEqB (.obj c5doc1) (.obj c5doc2) = true) ∧
    generate_data_hash c5doc1 = generate_data_hash c5doc2 :=
  ⟨⟨by decide, by decide, by decide⟩,
    C5_key_order_determinism c5doc1 c5doc2 (by decide) (by decide) (by decide)⟩

/-- First document of the C1 counterexample: no volatile fields. -/
def c1doc1 : Doc := []

/-- Second document of the C1 counterexample: one volatile field. -/
def c1doc2 : Doc := [("ipfs_version", Json.str "1.0")]

set_option maxRecDepth 40000 in
/-- C1 counterexample: the two documents are content-equivalent in the sense
of the claim (equal after excluding the volatile fields), yet
generate_data_hash, which serializes the document as given without excluding
the volatile fields, returns different digests. -/
theorem C1_counterexample :
    contentEquiv c1doc1 c1doc2 = true ∧
    generate_data_hash c1doc1 ≠ generate_data_hash c1doc2 := by
  constructor
  · decide
  · decide

/-- C1 amended: content-equivalence yields equal data hashes for documents
that carry no volatile fields, which is the case for every document the
create flow hashes; generate_data_hash itself excludes nothing. -/
theorem C1_content_equiv_hash (d1 d2 : Doc)
    (h1 : stripVolatile d1 = d1) (h2 : stripVolatile d2 = d2)
    (hw1 : wfDoc d1 = true) (hw2 : wfDoc d2 = true)
    (heq : contentEquiv d1 d2 = true) :
    generate_data_hash d1 = generate_data_hash d2 := by
  unfold contentEquiv at heq
  rw [h1, h2] at heq
  exact generate_data_hash_eq_of_canon (canon_eq_of_mapEq hw1 hw2 heq)

/-- Concrete C1 instance: documents without volatile fields, keys permuted. -/
def c1wdoc1 : Doc := [("a", .num 1), ("b", .str "x")]

/-- The same content with the opposite insertion order. -/
def c1wdoc2 : Doc := [("b", .str "x"), ("a", .num 1)]

/-- C1 witness: the amended hypotheses hold at a concrete pair. -/
theorem C1_content_equiv_hash_witness :
    (stripVolatile c1wdoc1 = c1wdoc1 ∧ stripVolatile c1wdoc2 = c1wdoc2 ∧
      wfDoc c1wdoc1 = true ∧ wfDoc c1wdoc2 = true ∧ contentEquiv c1wdoc1 c1wdoc2 = true) ∧
    generate_data_hash c1wdoc1 = generate_data_hash c1wdoc2 :=
  ⟨⟨rfl, rfl, by decide, by decide, by decide⟩,
    C1_content_equiv_hash c1wdoc1 c1wdoc2 rfl rfl (by decide) (by decide) (by decide)⟩

/-- Stored document of the C2 counterexample. -/
def c2stored : Doc := [("a", Json.num 1)]

/-- Retrieved document of the C2 counterexample: Python == accepts the
boolean True where the stored document has the integer 1. -/
def c2retrieved : Doc :=
  [("a", Json.bool true), ("ipfs_upload_timestamp", Json.str "2025-01-01T00:00:00"),
   ("ipfs_version", Json.str "1.0")]

set_option maxRecDepth 40000 in
/-- C2 counterexample: the structural comparison of the source accepts the
retrieved document, while the hash comparison stated by the specification
rejects it, so the two predicates do not coincide on every document. -/
theorem C2_counterexample :
    (verify_content_integrity (.ok c2retrieved) c2stored).is_valid = true ∧
    ¬ specIntegrityOk (.ok c2retrieved) c2stored := by
  constructor
  · decide
  · show ¬ (generate_data_hash (stripVolatile c2retrieved) =
        generate_data_hash (stripVolatile c2stored))
    decide

/-- C2 amended: on wellformed documents whose content-equivalent forms are
equal as strictly typed finite maps, the structural comparison of the source
succeeds and the hash comparison of the specification succeeds as well, so
the code decides the spec predicate on all inputs free of the boolean-integer
conflation of Python ==; the converse direction holds only up to keccak
collisions. -/
theorem C2_integrity_refinement (retrieved stored : Doc)
    (hw1 : wfDoc (stripVolatile retrieved) = true)
    (hw2 : wfDoc (stripVolatile stored) = true)
    (heq : contentEquiv retrieved stored = true) :
    (verify_content_integrity (.ok retrieved) stored).success = true ∧
    (verify_content_integrity (.ok retrieved) stored).is_valid = true ∧
    specIntegrityOk (.ok retrieved) stored := by
  refine ⟨rfl, ?_, ?_⟩
  · show jsonEqB (.obj (stripVolatile retrieved)) (.obj (stripVolatile stored)) = true
    exact jsonEq_of_mapEqF _ _ _ heq
  · show generate_data_hash (stripVolatile retrieved) = generate_data_hash (stripVolatile stored)
    exact generate_data_hash_eq_of_canon (canon_eq_of_mapEq hw1 hw2 heq)

/-- Retrieved document of the C2 witness. -/
def c2wretrieved : Doc := [("a", Json.num 2), ("ipfs_version", Json.str "1.0")]

/-- Stored document of the C2 witness. -/
def c2wstored : Doc := [("a", Json.num 2)]

/-- C2 witness: the amended hypotheses hold at a concrete pair. -/
theorem C2_integrity_refinement_witness :
    (wfDoc (stripVolatile c2wretrieved) = true ∧ wfDoc (stripVolatile c2wstored) = true ∧
      contentEquiv c2wretrieved c2wstored = true) ∧
    ((verify_content_integrity (.ok c2wretrieved) c2wstored).success = true ∧
      (verify_content_integrity (.ok c2wretrieved) c2wstored).is_valid = true ∧
      specIntegrityOk (.ok c2wretrieved) c2wstored) :=
  ⟨⟨by decide, by decide, by decide⟩,
    C2_integrity_refinement c2wretrieved c2wstored (by decide) (by decide) (by decide)⟩

/-- C9 amended: the data hash is a 32-byte digest rendered by the HexBytes
hex() method of the source as 0x followed by exactly 64 lowercase hexadecimal
characters, 66 characters in all, rather than a bare 64-character string. -/
theorem C9_hash_format (d : Doc) :
    ∃ s : String, generate_data_hash d = "0x" ++ s ∧ s.length = 64 ∧
      ∀ c ∈ s.data, isHexDigitChar c = true := by
  refine ⟨bytesToHex (keccak256Bytes (utf8Encode (dumpJson (canonJson (.obj d))))), rfl, ?_, ?_⟩
  · rw [bytesToHex_length, keccak256Bytes_length]
  · intro c hc
    exact hexChars_hex _ (keccak256Bytes_lt _) c hc

/-- Document of the C9 counterexample, the literal scenario of the spec. -/
def c9doc : Doc := [("name", .str "Shirt"), ("material", .obj [("cotton", .num 80), ("polyester", .num 20)])]

/-- C9 counterexample: the rendered data hash is not a 64-character string;
it is 66 characters long, because the hex rendering is 0x-prefixed. -/
theorem C9_counterexample : ¬ ((generate_data_hash c9doc).length = 64) := by
  rw [generate_data_hash_length]
  omega

/-- C10: the document uploaded to the content store is the input document
with exactly the two volatile fields stamped on top: both volatile keys map
to the stamped values whatever the input held, every other key keeps its
value, and the key set grows by at most those two keys. -/
theorem C10_upload_stamp (d : Doc) (ts : String) :
    getKey (stampMetadata d ts) "ipfs_upload_timestamp" = some (.str ts) ∧
    getKey (stampMetadata d ts) "ipfs_version" = some (.str "1.0") ∧
    (∀ k : String, k ≠ "ipfs_upload_timestamp" → k ≠ "ipfs_version" →
      getKey (stampMetadata d ts) k = getKey d k) ∧
    (∀ k : String, hasKeyB (stampMetadata d ts) k =
      (hasKeyB d k || k == "ipfs_upload_timestamp" || k == "ipfs_version")) := by
  refine ⟨?_, ?_, ?_, ?_⟩
  · unfold stampMetadata
    rw [getKey_setKey_other _ _ _ _ (by decide), getKey_setKey_same]
  · unfold stampMetadata
    rw [getKey_setKey_same]
  · intro k h1 h2
    unfold stampMetadata
    rw [getKey_setKey_other _ _ _ _ h2, getKey_setKey_other _ _ _ _ h1]
  · intro k
    unfold stampMetadata
    rw [hasKeyB_setKey, hasKeyB_setKey]

/-- C10 witness: the field-preservation conjunct applies at a concrete
document, timestamp and key. -/
theorem C10_upload_stamp_witness :
    getKey (stampMetadata [("a", Json.num 5)] "t0") "a" = getKey [("a", Json.num 5)] "a" :=
  (C10_upload_stamp [("a", Json.num 5)] "t0").2.2.1 "a" (by decide) (by decide)

/-! Claims C3, C4, C6, C7, C8. -/

/-- C3: when Verify finds the record, overall_valid holds exactly when the
content-store check, the integrity check and the ledger check all succeed,
the derived verdict is Valid exactly then, and the verdict always lies in the
closed four-state enumeration. -/
theorem C3_verdict_policy (env : VerifyEnv) (db : List DPPRecord) (dpp_id : String)
    (r : VerificationResult) (h : verify_dpp_integrity env db dpp_id = .ok r) :
    (r.overall_valid = true ↔
      (r.ipfs_check = true ∧ r.data_integrity = true ∧ r.blockchain_check = true)) ∧
    (verdictOf r = .valid ↔ r.overall_valid = true) ∧
    (verdictOf r = .valid ∨ verdictOf r = .degraded ∨ verdictOf r = .invalid ∨
      verdictOf r = .unverifiable) := by
  refine ⟨?_, verdictOf_valid_iff r, verdictOf_closed r⟩
  cases hf : db.find? fun rec => rec.id == dpp_id with
  | none => simp [verify_dpp_integrity, hf] at h
  | some dpp =>
    simp only [verify_dpp_integrity, hf, Except.ok.injEq] at h
    subst h
    simp only []
    constructor
    · intro hov
      simp [Bool.and_eq_true] at hov ⊢
      tauto
    · intro hov
      simp [Bool.and_eq_true] at hov ⊢
      tauto

/-- Environment of the C3 witness: both remote legs fail. -/
def c3env : VerifyEnv := ⟨.error "gateway down", .error "rpc down"⟩

/-- Record of the C3 witness. -/
def c3rec : DPPRecord := ⟨"d1", "p1", "u1", "Qm1", "0xh1", "g1", []⟩

/-- Result record of the C3 witness. -/
def c3res : VerificationResult := ⟨"d1", true, false, false, false, false⟩

/-- C3 witness: the lookup hypothesis holds at a concrete verify call. -/
theorem C3_verdict_policy_witness :
    (verify_dpp_integrity c3env [c3rec] "d1" = .ok c3res) ∧
    ((c3res.overall_valid = true ↔
      (c3res.ipfs_check = true ∧ c3res.data_integrity = true ∧ c3res.blockchain_check = true)) ∧
    (verdictOf c3res = .valid ↔ c3res.overall_valid = true) ∧
    (verdictOf c3res = .valid ∨ verdictOf c3res = .degraded ∨ verdictOf c3res = .invalid ∨
      verdictOf c3res = .unverifiable)) :=
  ⟨rfl, C3_verdict_policy c3env [c3rec] "d1" c3res rfl⟩

/-- C4 amended: whatever the ledger failure, once the upload has succeeded
the flow still attempts registration, persists exactly one new record, and
stores as its ledger transaction reference the data hash prefixed once more
with 0x, rather than the raw data hash itself. -/
theorem C4_ledger_failure_fallback (env : CreateEnv) (db : List DPPRecord) (product_id : String)
    (product : ProductInfo) (cid msg : String)
    (hprod : env.product = some product)
    (hnone : (db.find? fun r => r.product_id == product_id) = none)
    (hup : env.uploadResult = .ok cid)
    (hreg : env.registerResult = .error msg) :
    (create_complete_dpp env db product_id).registerAttempted = true ∧
    ∃ rec : DPPRecord,
      (create_complete_dpp env db product_id).result = .ok rec ∧
      (create_complete_dpp env db product_id).db = db ++ [rec] ∧
      rec.blockchain_hash = "0x" ++ generate_data_hash env.json_ld := by
  simp only [create_complete_dpp, hprod, hnone, hup, hreg, Option.isSome_none,
    Bool.false_eq_true, if_false]
  refine ⟨trivial, _, rfl, rfl, rfl⟩

/-- Product of the C4 scenario. -/
def c4prod : ProductInfo := ⟨"p1", "s1", some "g1"⟩

/-- Document of the C4 scenario. -/
def c4doc : Doc := [("name", Json.str "Shirt")]

/-- Environment of the C4 scenario: upload succeeds, registration fails. -/
def c4env : CreateEnv := ⟨some c4prod, "d1", c4doc, .ok "Qm1", .error "ledger down"⟩

/-- C4 counterexample: on the fallback path the persisted ledger reference is
not the raw data hash; it is the data hash with a second 0x prefix. -/
theorem C4_counterexample :
    ((create_complete_dpp c4env [] "p1").db.map fun r => r.blockchain_hash) =
      ["0x" ++ generate_data_hash c4doc] ∧
    "0x" ++ generate_data_hash c4doc ≠ generate_data_hash c4doc := by
  constructor
  · rfl
  · intro h
    have hl := congrArg String.length h
    rw [String.length_append, generate_data_hash_length] at hl
    have h2 : ("0x" : String).length = 2 := rfl
    rw [h2] at hl
    omega

/-- C4 witness: the amended hypotheses hold at the concrete scenario. -/
theorem C4_ledger_failure_fallback_witness :
    (c4env.product = some c4prod ∧
      (([] : List DPPRecord).find? fun r => r.product_id == "p1") = none ∧
      c4env.uploadResult = .ok "Qm1" ∧ c4env.registerResult = .error "ledger down") ∧
    ((create_complete_dpp c4env [] "p1").registerAttempted = true ∧
      ∃ rec : DPPRecord,
        (create_complete_dpp c4env [] "p1").result = .ok rec ∧
        (create_complete_dpp c4env [] "p1").db = [] ++ [rec] ∧
        rec.blockchain_hash = "0x" ++ generate_data_hash c4env.json_ld) :=
  ⟨⟨rfl, rfl, rfl, rfl⟩,
    C4_ledger_failure_fallback c4env [] "p1" c4prod "Qm1" "ledger down" rfl rfl rfl rfl⟩

/-- C6: when the content-store upload fails, create returns the upload error,
persists nothing, never reaches the ledger registration, and pins nothing. -/
theorem C6_upload_failure_aborts (env : CreateEnv) (db : List DPPRecord) (product_id : String)
    (product : ProductInfo) (e : String)
    (hprod : env.product = some product)
    (hnone : (db.find? fun r => r.product_id == product_id) = none)
    (hup : env.uploadResult = .error e) :
    (create_complete_dpp env db product_id).result = .error ("IPFS upload failed: " ++ e) ∧
    (create_complete_dpp env db product_id).db = db ∧
    (create_complete_dpp env db product_id).registerAttempted = false ∧
    (create_complete_dpp env db product_id).pinned = [] := by
  simp only [create_complete_dpp, hprod, hnone, hup, Option.isSome_none,
    Bool.false_eq_true, if_false]
  exact ⟨trivial, trivial, trivial, trivial⟩

/-- Environment of the C6 witness: the upload fails. -/
def c6env : CreateEnv := ⟨some ⟨"p1", "s1", none⟩, "d1", [], .error "store down", .ok "0xtx"⟩

/-- C6 witness: the hypotheses hold at a concrete failing upload. -/
theorem C6_upload_failure_aborts_witness :
    (c6env.product = some ⟨"p1", "s1", none⟩ ∧
      (([] : List DPPRecord).find? fun r => r.product_id == "p1") = none ∧
      c6env.uploadResult = .error "store down") ∧
    ((create_complete_dpp c6env [] "p1").result = .error ("IPFS upload failed: " ++ "store down") ∧
      (create_complete_dpp c6env [] "p1").db = [] ∧
      (create_complete_dpp c6env [] "p1").registerAttempted = false ∧
      (create_complete_dpp c6env [] "p1").pinned = []) :=
  ⟨⟨rfl, rfl, rfl⟩, C6_upload_failure_aborts c6env [] "p1" ⟨"p1", "s1", none⟩ "store down" rfl rfl rfl⟩

/-- At most one passport record per product: the product id column values are
pairwise distinct. -/
def UniquePerProduct (db : List DPPRecord) : Prop := (db.map fun r => r.product_id).Nodup

/-- C7: create fails without touching the database when a record for the
product already exists or when the product is unknown, a successful create
implies no record existed beforehand, and both create and republish preserve
the at-most-one-record-per-product invariant. -/
theorem C7_uniqueness (env : CreateEnv) (uenv : UpdateEnv) (db : List DPPRecord)
    (product_id dpp_id : String) (patch : Doc) :
    ((db.find? fun r => r.product_id == product_id).isSome = true → env.product.isSome = true →
      (create_complete_dpp env db product_id).result =
        .error "DPP already exists for this product" ∧
      (create_complete_dpp env db product_id).db = db) ∧
    (env.product = none →
      (create_complete_dpp env db product_id).result = .error "Product not found" ∧
      (create_complete_dpp env db product_id).db = db) ∧
    (∀ rec : DPPRecord, (create_complete_dpp env db product_id).result = .ok rec →
      (db.find? fun r => r.product_id == product_id) = none) ∧
    (UniquePerProduct db → UniquePerProduct (create_complete_dpp env db product_id).db) ∧
    (UniquePerProduct db → UniquePerProduct (update_dpp_metadata uenv db dpp_id patch).db) := by
  refine ⟨?_, ?_, ?_, ?_, ?_⟩
  · intro hfind hprod
    cases hp : env.product with
    | none => rw [hp] at hprod; cases hprod
    | some product => simp [create_complete_dpp, hp, hfind]
  · intro hp
    simp [create_complete_dpp, hp]
  · intro rec hok
    cases hp : env.product with
    | none => simp [create_complete_dpp, hp] at hok
    | some product =>
      cases hf : db.find? fun r => r.product_id == product_id with
      | some q => simp [create_complete_dpp, hp, hf] at hok
      | none => rfl
  · intro hu
    cases hp : env.product with
    | none => simpa [create_complete_dpp, hp] using hu
    | some product =>
      cases hf : db.find? fun r => r.product_id == product_id with
      | some q => simpa [create_complete_dpp, hp, hf] using hu
      | none =>
        cases hup : env.uploadResult with
        | error e => simpa [create_complete_dpp, hp, hf, hup] using hu
        | ok cid =>
          simp only [create_complete_dpp, hp, hf, hup, Option.isSome_none,
            Bool.false_eq_true, if_false]
          unfold UniquePerProduct at hu ⊢
          rw [List.map_append, List.nodup_append]
          refine ⟨hu, by simp, ?_⟩
          intro a ha hb
          simp at hb
          subst hb
          rcases List.mem_map.mp ha with ⟨r, hr, hrp⟩
          have hne := List.find?_eq_none.mp hf r hr
          simp at hne
          exact hne hrp
  · intro hu
    cases hfind : db.find? fun r => r.id == dpp_id with
    | none => simpa [update_dpp_metadata, hfind] using hu
    | some dpp =>
      cases hup : uenv.uploadResult with
      | error e => simpa [update_dpp_metadata, hfind, hup] using hu
      | ok cid =>
        simp only [update_dpp_metadata, hfind, hup]
        unfold UniquePerProduct at hu ⊢
        rw [List.map_map]
        have hcongr : (db.map ((fun r : DPPRecord => r.product_id) ∘ fun r =>
            if r.id == dpp_id then
              { r with ipfs_cid := cid, json_ld_data := setKey (mergeDicts dpp.json_ld_data patch) "dpp:updatedAt" (.str uenv.now) }
            else r)) = db.map fun r => r.product_id := by
          refine List.map_congr_left ?_
          intro r _
          by_cases hr : (r.id == dpp_id) = true
          · simp [Function.comp, hr]
          · simp [Function.comp, hr]
        rw [hcongr]
        exact hu

/-- Existing record of the C7 witness. -/
def c7rec : DPPRecord := ⟨"d0", "p1", "u0", "Qm0", "0x0", "g0", []⟩

/-- Create environment of the C7 witness. -/
def c7env : CreateEnv := ⟨some ⟨"p1", "s1", none⟩, "d1", [], .ok "Qm1", .ok "0xtx"⟩

/-- Update environment of the C7 witness. -/
def c7uenv : UpdateEnv := ⟨"t1", .ok "Qm2"⟩

/-- C7 witness: with a record already present, create reports the conflict
and leaves the database unchanged. -/
theorem C7_uniqueness_witness :
    ((([c7rec].find? fun r => r.product_id == "p1").isSome = true ∧
      c7env.product.isSome = true)) ∧
    ((create_complete_dpp c7env [c7rec] "p1").result =
        .error "DPP already exists for this product" ∧
      (create_complete_dpp c7env [c7rec] "p1").db = [c7rec]) :=
  ⟨⟨rfl, rfl⟩, (C7_uniqueness c7env c7uenv [c7rec] "p1" "dX" []).1 rfl rfl⟩

/-- C8 amended: republish on an existing passport merges the patch shallowly
over the stored document, stamps the update timestamp, uploads the result and
replaces the content identifier and document on the existing record in
place; it creates no record, unpins nothing, and leaves the stored ledger
reference untouched, returning the fresh data hash only in its result. -/
theorem C8_republish_in_place (env : UpdateEnv) (db : List DPPRecord) (dpp_id : String)
    (patch : Doc) (dpp : DPPRecord) (cid : String)
    (hfind : (db.find? fun r => r.id == dpp_id) = some dpp)
    (hup : env.uploadResult = .ok cid) :
    (update_dpp_metadata env db dpp_id patch).result =
      .ok ⟨dpp_id, cid, generate_data_hash
        (setKey (mergeDicts dpp.json_ld_data patch) "dpp:updatedAt" (.str env.now))⟩ ∧
    (update_dpp_metadata env db dpp_id patch).db = (db.map fun r =>
      if r.id == dpp_id then
        { r with ipfs_cid := cid, json_ld_data := setKey (mergeDicts dpp.json_ld_data patch) "dpp:updatedAt" (.str env.now) }
      else r) ∧
    ((update_dpp_metadata env db dpp_id patch).db.map fun r => r.blockchain_hash) =
      (db.map fun r => r.blockchain_hash) ∧
    (update_dpp_metadata env db dpp_id patch).db.length = db.length ∧
    (update_dpp_metadata env db dpp_id patch).unpinned = [] := by
  simp only [update_dpp_metadata, hfind, hup]
  refine ⟨by trivial, by trivial, ?_, by rw [List.length_map], by trivial⟩
  rw [List.map_map]
  refine List.map_congr_left ?_
  intro r _
  by_cases hr : (r.id == dpp_id) = true
  · simp [Function.comp, hr]
  · simp [Function.comp, hr]

/-- Existing record of the C8 scenario, with a distinguishable ledger
reference. -/
def c8rec : DPPRecord := ⟨"d1", "p1", "u1", "QmOld", "0xabc", "g1", [("name", Json.str "Shirt")]⟩

/-- Update environment of the C8 scenario: the upload of the new version
succeeds. -/
def c8env : UpdateEnv := ⟨"2025-01-02T00:00:00", .ok "QmNew"⟩

/-- Patch of the C8 scenario. -/
def c8patch : Doc := [("color", Json.str "blue")]

/-- C8 counterexample: the republish succeeds, yet the persisted ledger
reference keeps its prior value, contradicting the claim that the ledger
reference is replaced on the existing record. -/
theorem C8_counterexample :
    (update_dpp_metadata c8env [c8rec] "d1" c8patch).result.isOk = true ∧
    ((update_dpp_metadata c8env [c8rec] "d1" c8patch).db.map fun r => r.blockchain_hash) =
      ["0xabc"] :=
  ⟨rfl, rfl⟩

/-- C8 witness: the amended hypotheses hold at the concrete scenario. -/
theorem C8_republish_in_place_witness :
    ((([c8rec].find? fun r => r.id == "d1") = some c8rec) ∧ c8env.uploadResult = .ok "QmNew") ∧
    ((update_dpp_metadata c8env [c8rec] "d1" c8patch).result =
      .ok ⟨"d1", "QmNew", generate_data_hash
        (setKey (mergeDicts c8rec.json_ld_data c8patch) "dpp:updatedAt" (.str c8env.now))⟩ ∧
    (update_dpp_metadata c8env [c8rec] "d1" c8patch).db = ([c8rec].map fun r =>
      if r.id == "d1" then
        { r with ipfs_cid := "QmNew", json_ld_data := setKey (mergeDicts c8rec.json_ld_data c8patch) "dpp:updatedAt" (.str c8env.now) }
      else r) ∧
    ((update_dpp_metadata c8env [c8rec] "d1" c8patch).db.map fun r => r.blockchain_hash) =
      ([c8rec].map fun r => r.blockchain_hash) ∧
    (update_dpp_metadata c8env [c8rec] "d1" c8patch).db.length = ([c8rec] : List DPPRecord).length ∧
    (update_dpp_metadata c8env [c8rec] "d1" c8patch).unpinned = []) :=
  ⟨⟨rfl, rfl⟩, C8_republish_in_place c8env [c8rec] "d1" c8patch c8rec "QmNew" rfl rfl⟩
